import Mathlib

/-!
Verification of the waveform interval-reconciliation subsystem of obsplus
(`merge_traces`, `stream2contiguous`, `stream_bulk_split`,
`get_waveform_bulk_df`) and of the stations tabular module
(`obsplus/stations/pd.py`).

The repository snapshot contains the test suite of the waveform utilities
(`tests/test_utils/test_waveforms_utils.py`) but not the utilities
themselves, so those operations are modelled from the specification's data
model and algorithm descriptions (sections 3 and 4 of the spec); every such
definition carries a doc comment starting with `Modelled from the spec:`.
The stations module is present in the sources and is embedded directly.

Timestamps and sampling rates are modelled as rationals, payloads as lists
of integer sample values, and payload numeric types as a small `DType`
enumeration with the widening order described by the spec.
-/

/-- Modelled from the spec: the payload numeric type of a Segment, tracked
for merge type-promotion (spec section 3 and section 4.1 step 4). The four
concrete types are ordered by width, every floating-point type being wider
than every integer type. -/
inductive DType where
  | int32 : DType
  | int64 : DType
  | float32 : DType
  | float64 : DType
deriving DecidableEq, Repr

namespace DType

/-- Width rank used for promotion: integers below floats, narrower below
wider. -/
def rank : DType → Nat
  | int32 => 0
  | int64 => 1
  | float32 => 2
  | float64 => 3

/-- Whether a payload type is floating-point. -/
def isFloat : DType → Bool
  | float32 => true
  | float64 => true
  | _ => false

/-- Modelled from the spec: type promotion of merged payloads — the
"wider" of the two types (spec section 4.1 step 4). -/
def promote (a b : DType) : DType :=
  if a.rank ≤ b.rank then b else a

/-- The widening order on payload types. -/
def le (a b : DType) : Prop := a.rank ≤ b.rank

theorem rank_injective : ∀ {a b : DType}, a.rank = b.rank → a = b := by
  intro a b
  cases a <;> cases b <;> simp [rank]

theorem promote_self (a : DType) : promote a a = a := by
  simp [promote]

theorem promote_eq_left_of_le {a b : DType} (h : le b a) : promote a b = a := by
  unfold promote
  by_cases hc : a.rank ≤ b.rank
  · have : a.rank = b.rank := Nat.le_antisymm hc h
    simp [hc, rank_injective this]
  · simp [hc]

theorem le_promote_left (a b : DType) : le a (promote a b) := by
  unfold promote le
  by_cases hc : a.rank ≤ b.rank <;> simp [hc]

theorem le_promote_right (a b : DType) : le b (promote a b) := by
  unfold promote le
  by_cases hc : a.rank ≤ b.rank <;> simp [hc]
  exact Nat.le_of_lt (Nat.lt_of_not_le hc)

theorem le_trans {a b c : DType} (h1 : le a b) (h2 : le b c) : le a c :=
  Nat.le_trans h1 h2

theorem le_refl (a : DType) : le a a := Nat.le_refl _

theorem promote_comm (a b : DType) : promote a b = promote b a := by
  cases a <;> cases b <;> rfl

theorem isFloat_promote (a b : DType) :
    (promote a b).isFloat = (a.isFloat || b.isFloat) := by
  cases a <;> cases b <;> rfl

end DType

/-- Modelled from the spec: the channel identity key — the tuple of
(network, station, location, channel) codes grouping segments belonging to
the same logical channel (spec section 3). -/
structure Identity where
  network : String
  station : String
  location : String
  channel : String
deriving DecidableEq, Repr

/-- Modelled from the spec: a Segment — a contiguous run of uniformly
sampled data for one channel identity, with absolute start/stop
timestamps, a sampling rate, an opaque per-sample payload, and the payload
numeric type (spec section 3). `sample_count` is the payload length. -/
structure Segment where
  identity : Identity
  start : ℚ
  stop : ℚ
  sampling_rate : ℚ
  payload : List Int
  dtype : DType
deriving DecidableEq, Repr

namespace Segment

/-- Number of samples actually present in a segment. -/
def sample_count (s : Segment) : Nat := s.payload.length

end Segment

/-- Modelled from the spec: the Segment invariant of the data model —
`sample_count` agrees with `(end - start) * sampling_rate` (one sample per
period, endpoints inclusive), the sampling rate is positive and the time
range is non-degenerate (spec section 3). -/
def WF (s : Segment) : Prop :=
  0 < s.sampling_rate ∧ s.start ≤ s.stop ∧
    (s.sample_count : ℚ) = (s.stop - s.start) * s.sampling_rate + 1

instance (s : Segment) : Decidable (WF s) := by
  unfold WF; infer_instance

/-- Modelled from the spec: a segment has zero internal gap when its sample
count exactly fills its stated time range at its sampling rate. -/
def gapFree (s : Segment) : Prop :=
  (s.sample_count : ℚ) = (s.stop - s.start) * s.sampling_rate + 1

instance (s : Segment) : Decidable (gapFree s) := by
  unfold gapFree; infer_instance

/-- Stable insertion of a segment into a list ordered by start time: the
new element goes after every element whose start is not later. -/
def insertSeg (x : Segment) : List Segment → List Segment
  | [] => [x]
  | y :: l => if y.start ≤ x.start then y :: insertSeg x l else x :: y :: l

/-- Stable insertion sort of segments by start time (spec section 4.1
step 2). -/
def sortSegs (l : List Segment) : List Segment :=
  l.foldr insertSeg []

/-- Modelled from the spec: splicing the next segment onto the current run
(spec section 4.1 step 3, overlap-or-adjacency case). The non-overlapping
portion of the next segment's payload — its samples strictly after the
run's end — is concatenated onto the run; for overlapping samples the
run's existing samples are preferred (the deterministic choice the spec
leaves to the implementer). The run's end extends to the later of the two
ends and the payload type promotes to the wider of the two (spec section
4.1 step 4). -/
def splice (run next : Segment) : Segment :=
  { run with
      stop := max run.stop next.stop
      payload := run.payload ++
        next.payload.drop (⌊(run.stop - next.start) * next.sampling_rate⌋ + 1).toNat
      dtype := run.dtype.promote next.dtype }

/-- Modelled from the spec: the in-order scan of same-key segments sorted
by start, maintaining a current run (spec section 4.1 step 3): a segment
byte-for-byte identical to the current run is dropped as a duplicate; a
segment starting no later than the run's end plus one sample period is
spliced onto the run; otherwise the run is closed and a new run starts. -/
def mergeRuns (run : Segment) : List Segment → List Segment
  | [] => [run]
  | next :: rest =>
      if next = run then mergeRuns run rest
      else if next.start ≤ run.stop + 1 / run.sampling_rate then
        mergeRuns (splice run next) rest
      else run :: mergeRuns next rest

/-- Run the merge scan over an already-sorted group (empty group gives no
runs). -/
def scanAll : List Segment → List Segment
  | [] => []
  | h :: t => mergeRuns h t

/-- Modelled from the spec: merging one identity-and-rate group — sort by
start, then scan (spec section 4.1 steps 2-3, 5). -/
def mergeGroup (l : List Segment) : List Segment :=
  scanAll (sortSegs l)

/-- Grouping key of the merge: segments are only ever merged with segments
of the same identity and the same sampling rate (spec section 4.1 step 1:
segments with differing `sampling_rate` are never merged with each other
and are kept as separate, independent entries). -/
def segKey (s : Segment) : Identity × ℚ := (s.identity, s.sampling_rate)

/-- Modelled from the spec: `merge_traces` — the IntervalMerger contract
(spec section 4.1). Segments are grouped by identity and sampling rate (so
that differing-rate segments of one identity stay separate, as step 1
requires, while the spec's idempotence property of section 8 holds for the
same-rate ones), each group is sorted by start and scanned into maximal
runs, and the groups are emitted in order of first appearance of their
key. -/
def merge_traces (l : List Segment) : List Segment :=
  ((l.map segKey).dedup).flatMap
    (fun k => mergeGroup (l.filter (fun s => decide (segKey s = k))))

/-- Modelled from the spec: a Query — a request window for one identity
(spec section 3); `requested_end ≥ requested_start` is required, else the
query is malformed. -/
structure Query where
  identity : Identity
  requested_start : ℚ
  requested_end : ℚ
deriving DecidableEq, Repr

/-- A default query value used with positional list access. -/
def defaultQuery : Query := ⟨⟨"", "", "", ""⟩, 0, 0⟩

/-- Whether an available segment belongs to a query's identity and its time
range intersects the requested window (spec section 4.3 step 2). -/
def intersectsQ (q : Query) (s : Segment) : Bool :=
  decide (s.identity = q.identity) && decide (s.start ≤ q.requested_end) &&
    decide (q.requested_start ≤ s.stop)

/-- Modelled from the spec: trimming a segment to the intersection with a
requested window, discarding samples outside it (spec section 4.3 step 3).
Sample `k` of a segment lives at time `start + k / sampling_rate`; the
trim keeps exactly the samples whose times lie in `[t1, t2]`. -/
def trimSeg (t1 t2 : ℚ) (s : Segment) : Segment :=
  let k1 : ℤ := max 0 ⌈(t1 - s.start) * s.sampling_rate⌉
  let k2 : ℤ := min ((s.payload.length : ℤ) - 1) ⌊(t2 - s.start) * s.sampling_rate⌋
  { s with
      start := s.start + (k1 : ℚ) / s.sampling_rate
      stop := s.start + (k2 : ℚ) / s.sampling_rate
      payload := (s.payload.drop k1.toNat).take (k2 - k1 + 1).toNat }

/-- Modelled from the spec: the sample value at absolute time `t` taken
from the first matched segment covering `t`, or the fill value when no
segment covers `t` (spec section 4.3 step 4, fill policy). -/
def sampleValue (ms : List Segment) (v : Int) (t : ℚ) : Int :=
  match ms.find? (fun s => decide (s.start ≤ t) && decide (t ≤ s.stop)) with
  | some s => s.payload.getD (⌊(t - s.start) * s.sampling_rate⌋).toNat v
  | none => v

/-- Modelled from the spec: the one continuous output segment spanning the
full requested window, with constant filler samples synthesized for every
uncovered sub-range (spec section 4.3 step 4, `fill_value` provided). The
output grid is anchored at `requested_start` with the matched segments'
sampling rate. -/
def fillSeg (q : Query) (ms : List Segment) (rate : ℚ) (v : Int) : Segment :=
  let n : Nat := (⌊(q.requested_end - q.requested_start) * rate⌋).toNat + 1
  { identity := q.identity
    start := q.requested_start
    stop := q.requested_start + ((n : ℚ) - 1) / rate
    sampling_rate := rate
    payload := (List.range n).map
      (fun k : Nat => sampleValue ms v (q.requested_start + (k : ℚ) / rate))
    dtype := DType.float64 }

/-- Modelled from the spec: resolution of one Query against the available
segments (spec section 4.3 steps 1-5): segments of the query's identity
intersecting the window are selected; if none match the Bundle is empty
(not an error); with no fill value the trimmed sub-segments are returned
in time order; with a fill value one continuous filled segment spanning
the whole window is returned. -/
def resolveQuery (avail : List Segment) (q : Query) (fill : Option Int) :
    List Segment :=
  match avail.filter (intersectsQ q) with
  | [] => []
  | s0 :: rest =>
      match fill with
      | some v => [fillSeg q (s0 :: rest) s0.sampling_rate v]
      | none => sortSegs ((s0 :: rest).map (trimSeg q.requested_start q.requested_end))

/-- Modelled from the spec: the validation errors of the subsystem — a
malformed query naming the offending identity, or a missing required
bulk-table column naming the column (spec section 7). -/
inductive ValidationError where
  | badQuery : Identity → ValidationError
  | missingColumn : String → ValidationError
deriving DecidableEq, Repr

/-- Modelled from the spec: `stream_bulk_split` — the BulkIntervalResolver
contract (spec section 4.3): one Bundle per query, in input order; a
malformed query (`requested_end < requested_start`) fails fast with a
validation error naming the offending identity and produces no partial
results. -/
def stream_bulk_split (avail : List Segment) (queries : List Query)
    (fill : Option Int) : Except ValidationError (List (List Segment)) :=
  match queries.find? (fun q => decide (q.requested_end < q.requested_start)) with
  | some q => .error (.badQuery q.identity)
  | none => .ok (queries.map (fun q => resolveQuery avail q fill))

/-- Consecutive pairs of a list, in order. -/
def consecPairs : List ℚ → List (ℚ × ℚ)
  | a :: b :: rest => (a, b) :: consecPairs (b :: rest)
  | _ => []

/-- Insertion of a rational into a sorted list, keeping it sorted. -/
def insertQ (x : ℚ) : List ℚ → List ℚ
  | [] => [x]
  | y :: l => if y ≤ x then y :: insertQ x l else x :: y :: l

/-- Insertion sort of rationals. -/
def sortQ (l : List ℚ) : List ℚ :=
  l.foldr insertQ []

/-- Modelled from the spec: the breakpoints of a collection — every
segment start and every segment end, deduplicated and in increasing order
(spec section 4.2). -/
def breakpoints (l : List Segment) : List ℚ :=
  sortQ ((l.map Segment.start ++ l.map Segment.stop).dedup)

/-- The distinct identities present in a collection. -/
def identsOf (l : List Segment) : List Identity :=
  (l.map Segment.identity).dedup

/-- Whether some segment of the given identity covers the whole window
`[t1, t2]`. -/
def coversB (l : List Segment) (i : Identity) (t1 t2 : ℚ) : Bool :=
  l.any (fun s => decide (s.identity = i) && decide (s.start ≤ t1) && decide (t2 ≤ s.stop))

/-- Whether every identity present has a segment covering `[t1, t2]`. -/
def qualB (l : List Segment) (t1 t2 : ℚ) : Bool :=
  (identsOf l).all (fun i => coversB l i t1 t2)

/-- Coalescing of consecutive abutting qualifying sub-intervals into
maximal windows (spec section 4.2). -/
def coalesce : List (ℚ × ℚ) → List (ℚ × ℚ)
  | [] => []
  | (a, b) :: rest =>
      match coalesce rest with
      | [] => [(a, b)]
      | (c, d) :: rest' =>
          if b = c then (a, d) :: rest' else (a, b) :: (c, d) :: rest'

/-- Modelled from the spec: the maximal windows in which every identity
has continuous coverage — qualifying sub-intervals between consecutive
breakpoints, coalesced (spec section 4.2). -/
def contiguousWindows (l : List Segment) : List (ℚ × ℚ) :=
  coalesce ((consecPairs (breakpoints l)).filter (fun p => qualB l p.1 p.2))

/-- Modelled from the spec: the Bundle emitted for one maximal window —
for each identity, the segment covering the window, re-trimmed to it
(spec section 4.2). -/
def bundleAt (l : List Segment) (w : ℚ × ℚ) : List Segment :=
  (identsOf l).filterMap (fun i =>
    (l.find? (fun s => decide (s.identity = i) && decide (s.start ≤ w.1) &&
        decide (w.2 ≤ s.stop))).map (trimSeg w.1 w.2))

/-- Modelled from the spec: `stream2contiguous` — the ContiguityPartitioner
contract (spec section 4.2): one Bundle per maximal window in which every
identity has continuous coverage. -/
def stream2contiguous (l : List Segment) : List (List Segment) :=
  (contiguousWindows l).map (bundleAt l)

/-- A cell of the tabular bulk-request front end: either a code string or
an already-normalized absolute timestamp. -/
inductive Cell where
  | str : String → Cell
  | time : ℚ → Cell
deriving DecidableEq, Repr

/-- A table: named columns, each an ordered list of cells. -/
def Table : Type := List (String × List Cell)

/-- The recognized bulk-request columns, in canonical order (spec section
4.3, tabular input convenience). -/
def WAVEFORM_REQUEST_COLUMNS : List String :=
  ["network", "station", "location", "channel", "starttime", "endtime"]

/-- Modelled from the spec: `get_waveform_bulk_df` — normalization of
table-form bulk input (spec section 4.3): the recognized columns are kept
in canonical order, extra columns are dropped, and a missing required
column fails with a validation error naming the missing column. -/
def get_waveform_bulk_df (t : Table) : Except ValidationError Table :=
  match WAVEFORM_REQUEST_COLUMNS.find? (fun c => (t.lookup c).isNone) with
  | some c => .error (.missingColumn c)
  | none => .ok (WAVEFORM_REQUEST_COLUMNS.filterMap
      (fun c => (t.lookup c).map (fun vs => (c, vs))))

/-- The code string held by a cell, defaulting to the empty string. -/
def Cell.getStr : Cell → String
  | .str v => v
  | _ => ""

/-- The timestamp held by a cell, defaulting to zero. -/
def Cell.getTime : Cell → ℚ
  | .time v => v
  | _ => 0

/-- Row extraction from a normalized bulk table: the i-th query is read
from the i-th entries of the six recognized columns. -/
def queriesOfTable (t : Table) : List Query :=
  let col := fun c => (t.lookup c).getD []
  let n := (col "network").length
  (List.range n).map (fun i =>
    { identity :=
        { network := ((col "network").getD i (.str "")).getStr
          station := ((col "station").getD i (.str "")).getStr
          location := ((col "location").getD i (.str "")).getStr
          channel := ((col "channel").getD i (.str "")).getStr }
      requested_start := ((col "starttime").getD i (.time 0)).getTime
      requested_end := ((col "endtime").getD i (.time 0)).getTime })

/-- End-to-end resolution of table-form bulk input: normalize the table,
extract the queries, resolve them. -/
def resolveTable (avail : List Segment) (t : Table) (fill : Option Int) :
    Except ValidationError (List (List Segment)) :=
  match get_waveform_bulk_df t with
  | .error e => .error e
  | .ok u => stream_bulk_split avail (queriesOfTable u) fill

/-! The stations tabular module (`src/obsplus/stations/pd.py`), embedded
from the source. A channel-level inventory is flattened to one row per
channel; `stations_to_df` is the conversion entry point; at module load
time a `to_df` method delegating to it is attached onto the external
library's `Inventory` class. -/

/-- A channel of the external inventory model (the fields `pd.py` reads). -/
structure InvChannel where
  code : String
  location_code : String
deriving DecidableEq, Repr

/-- A station of the external inventory model. -/
structure InvStation where
  code : String
  channels : List InvChannel
deriving DecidableEq, Repr

/-- A network of the external inventory model. -/
structure InvNetwork where
  code : String
  stations : List InvStation
deriving DecidableEq, Repr

/-- The external library's `Inventory` object: a list of networks. -/
structure Inventory where
  networks : List InvNetwork
deriving DecidableEq, Repr

/-- One row of the summary dataframe built by `_extract_channel`. -/
structure ChannelRow where
  network : String
  station : String
  channel : String
  location : String
  seed_id : String
deriving DecidableEq, Repr

/-- From the source (`pd.py`, `_extract_channel`): walk networks, stations
and channels of an inventory, building one row per channel with the
`seed_id` joined from the network, station, location and channel codes. -/
def _extract_channel (inventory : Inventory) : List ChannelRow :=
  inventory.networks.flatMap (fun net =>
    net.stations.flatMap (fun sta =>
      sta.channels.map (fun chan =>
        { network := net.code
          station := sta.code
          channel := chan.code
          location := chan.location_code
          seed_id := String.intercalate "."
            [net.code, sta.code, chan.location_code, chan.code] })))

/-- From the source (`pd.py`): `stations_to_df` applied to an `Inventory`
dispatches to the registered `_extract_channel` handler. -/
def stations_to_df (inventory : Inventory) : List ChannelRow :=
  _extract_channel inventory

/-- From the source (`pd.py`): `inventory_to_dataframe` delegates to
`stations_to_df`. -/
def inventory_to_dataframe (inventory_like : Inventory) : List ChannelRow :=
  stations_to_df inventory_like

/-- The mutable attribute table of the external `Inventory` class: the
slot for a `to_df` method, absent until someone assigns it. -/
structure InventoryClass where
  to_df : Option (Inventory → List ChannelRow)

/-- Process-wide state affected by importing the stations module: the
external library's `Inventory` class object. -/
structure PyState where
  inventoryClass : InventoryClass

/-- From the source (`pd.py`, module level): importing the module executes
`obspy.core.inventory.Inventory.to_df = inventory_to_dataframe`, mutating
the foreign class in place. -/
def loadStationsPd (st : PyState) : PyState :=
  { st with inventoryClass := { to_df := some inventory_to_dataframe } }

/-- Python attribute lookup on an `Inventory` instance: instances carry no
own `to_df`, so the lookup falls through to the class slot. -/
def instanceToDf (st : PyState) (inv : Inventory) : Option (List ChannelRow) :=
  st.inventoryClass.to_df.map (fun f => f inv)

/-! Concrete inputs used to witness the theorems below on evaluated runs
of the embedded operations. -/

/-- A channel identity used by the concrete examples. -/
def idW : Identity := ⟨"BW", "RJOB", "", "EHZ"⟩

/-- A well-formed five-sample integer segment. -/
def wSegA : Segment := ⟨idW, 0, 4, 1, [1, 2, 3, 4, 5], DType.int32⟩

/-- A segment of the same identity as `wSegA` but a different sampling
rate. -/
def wSegR2 : Segment := ⟨idW, 0, 2, 2, [1, 2, 3, 4, 5], DType.int64⟩

/-- A floating-point segment overlapping `wIntSeg`. -/
def wFloatSeg : Segment := ⟨idW, 0, 4, 1, [10, 20, 30, 40, 50], DType.float64⟩

/-- An integer segment overlapping `wFloatSeg`. -/
def wIntSeg : Segment := ⟨idW, 2, 6, 1, [1, 2, 3, 4, 5], DType.int32⟩

/-- A floating-point segment starting strictly later than the integer
segment `wSegA` it overlaps. -/
def wFloatLate : Segment := ⟨idW, 2, 6, 1, [10, 20, 30, 40, 50], DType.float64⟩

/-- A segment starting exactly one sample period after `wSegA` ends. -/
def wAdjSeg : Segment := ⟨idW, 5, 9, 1, [6, 7, 8, 9, 10], DType.int32⟩

/-- First identity of the partitioner examples. -/
def idA5 : Identity := ⟨"UU", "AAA", "", "HHZ"⟩

/-- Second identity of the partitioner examples. -/
def idB5 : Identity := ⟨"UU", "BBB", "", "HHZ"⟩

/-- Third identity of the partitioner examples. -/
def idC5 : Identity := ⟨"UU", "CCC", "", "HHZ"⟩

/-- Identity `idA5` covering the whole 30-second window. -/
def sA5 : Segment := ⟨idA5, 0, 30, 1, List.replicate 31 1, DType.float64⟩

/-- Identity `idB5` covering the whole 30-second window. -/
def sB5 : Segment := ⟨idB5, 0, 30, 1, List.replicate 31 2, DType.float64⟩

/-- First half of identity `idC5`, ending at the gap. -/
def sC5a : Segment := ⟨idC5, 0, 14, 1, List.replicate 15 3, DType.float64⟩

/-- Second half of identity `idC5`, resuming after the 2-second gap. -/
def sC5b : Segment := ⟨idC5, 16, 30, 1, List.replicate 15 4, DType.float64⟩

/-- Three identities spanning a common 30-second window, one of them with
a 2-second gap in the middle. -/
def exC5 : List Segment := [sA5, sB5, sC5a, sC5b]

/-- A segment disjoint in time from `dB5`. -/
def dA5 : Segment := ⟨idA5, 0, 1, 1, [1, 2], DType.float64⟩

/-- A segment disjoint in time from `dA5`. -/
def dB5 : Segment := ⟨idB5, 2, 3, 1, [1, 2], DType.float64⟩

/-- Two identities with fully disjoint coverage: no common window. -/
def exDisjoint : List Segment := [dA5, dB5]

/-- A well-formed query over `idW`. -/
def wQ : Query := ⟨idW, 0, 10⟩

/-- A malformed query: requested end earlier than requested start. -/
def wBadQ : Query := ⟨idW, 10, 0⟩

/-- The available data of the fill example: twenty seconds of sevens
starting at t = 10. -/
def exAvail7 : List Segment := [⟨idW, 10, 30, 1, List.replicate 21 7, DType.float64⟩]

/-- The fill example's query: a window extending 10 seconds before the
available data. -/
def exQ7 : Query := ⟨idW, 0, 20⟩

/-- A canonical-order bulk table with one row. -/
def wTab : Table :=
  [("network", [.str "UU"]), ("station", [.str "TMU"]), ("location", [.str "01"]),
   ("channel", [.str "HHZ"]), ("starttime", [.time 0]), ("endtime", [.time 10])]

/-- The same bulk table with the column order reversed and an extra
column. -/
def wTabRev : Table :=
  [("bob", [.str "lightening"]), ("endtime", [.time 10]), ("starttime", [.time 0]),
   ("channel", [.str "HHZ"]), ("location", [.str "01"]), ("station", [.str "TMU"]),
   ("network", [.str "UU"])]

/-- The bulk table with the required `network` column removed. -/
def wTabMissing : Table :=
  [("station", [.str "TMU"]), ("location", [.str "01"]),
   ("channel", [.str "HHZ"]), ("starttime", [.time 0]), ("endtime", [.time 10])]

/-! Lemmas about the merge machinery, leading to the idempotence of
deduplication (spec section 8). -/

/-- The order on segments used by the merge's sort. -/
def startLE (a b : Segment) : Prop := a.start ≤ b.start

theorem mem_insertSeg {a x : Segment} : ∀ {l : List Segment},
    a ∈ insertSeg x l ↔ a = x ∨ a ∈ l
  | [] => by simp [insertSeg]
  | y :: l => by
    by_cases hc : y.start ≤ x.start
    · simp only [insertSeg, if_pos hc, List.mem_cons, mem_insertSeg (l := l)]
      tauto
    · rw [insertSeg, if_neg hc]
      simp [List.mem_cons]

theorem insertSeg_pairwise {x : Segment} : ∀ {l : List Segment},
    l.Pairwise startLE → (insertSeg x l).Pairwise startLE
  | [], _ => by simp [insertSeg, List.pairwise_singleton]
  | y :: l, h => by
    rcases List.pairwise_cons.mp h with ⟨hy, ht⟩
    by_cases hc : y.start ≤ x.start
    · rw [insertSeg, if_pos hc]
      refine List.pairwise_cons.mpr ⟨?_, insertSeg_pairwise ht⟩
      intro b hb
      rcases mem_insertSeg.mp hb with hb | hb
      · subst hb; exact hc
      · exact hy b hb
    · rw [insertSeg, if_neg hc]
      have hxy : x.start ≤ y.start := le_of_lt (lt_of_not_le hc)
      refine List.pairwise_cons.mpr ⟨?_, h⟩
      intro b hb
      rcases List.mem_cons.mp hb with hb | hb
      · subst hb; exact hxy
      · exact le_trans hxy (hy b hb)

theorem mem_foldr_insertSeg {a : Segment} : ∀ {X M : List Segment},
    a ∈ X.foldr insertSeg M ↔ a ∈ X ∨ a ∈ M
  | [], M => by simp
  | x :: X, M => by
    simp only [List.foldr_cons, mem_insertSeg, mem_foldr_insertSeg (X := X), List.mem_cons]
    tauto

theorem foldr_insertSeg_pairwise : ∀ {X M : List Segment},
    M.Pairwise startLE → (X.foldr insertSeg M).Pairwise startLE
  | [], _, h => h
  | _ :: _, _, h => insertSeg_pairwise (foldr_insertSeg_pairwise h)

theorem mem_sortSegs {a : Segment} {l : List Segment} : a ∈ sortSegs l ↔ a ∈ l := by
  unfold sortSegs
  simp [mem_foldr_insertSeg]

theorem sortSegs_pairwise (l : List Segment) : (sortSegs l).Pairwise startLE :=
  foldr_insertSeg_pairwise List.Pairwise.nil

/-- A segment is absorbed by a run when its time range already ends within
the run and its payload type is no wider than the run's. -/
def Absorbed (r x : Segment) : Prop :=
  x.stop ≤ r.stop ∧ DType.le x.dtype r.dtype

theorem WF.start_le_stop {s : Segment} (h : WF s) : s.start ≤ s.stop := h.2.1

theorem WF.rate_pos {s : Segment} (h : WF s) : 0 < s.sampling_rate := h.1

/-- Splicing a well-formed segment wholly contained in the run leaves the
run unchanged: there is no non-overlapping portion to concatenate. -/
theorem splice_absorb {r x : Segment} (hWF : WF x) (h : Absorbed r x) :
    splice r x = r := by
  obtain ⟨hrate, hse, hcount⟩ := hWF
  have hstop : max r.stop x.stop = r.stop := max_eq_left h.1
  have hlen : (x.payload.length : ℚ) = (x.stop - x.start) * x.sampling_rate + 1 := hcount
  have hfloor : (x.payload.length : ℤ) - 1 ≤ ⌊(r.stop - x.start) * x.sampling_rate⌋ := by
    rw [Int.le_floor]
    push_cast
    have : (x.stop - x.start) * x.sampling_rate ≤ (r.stop - x.start) * x.sampling_rate := by
      apply mul_le_mul_of_nonneg_right _ (le_of_lt hrate)
      linarith [h.1]
    linarith [hlen, this]
  have hdrop : x.payload.length ≤ (⌊(r.stop - x.start) * x.sampling_rate⌋ + 1).toNat := by
    have h0 : (0 : ℤ) ≤ ⌊(r.stop - x.start) * x.sampling_rate⌋ + 1 := by
      have : (0 : ℤ) ≤ (x.payload.length : ℤ) := Int.ofNat_nonneg _
      omega
    rw [Int.le_toNat h0]
    omega
  have hpay : x.payload.drop (⌊(r.stop - x.start) * x.sampling_rate⌋ + 1).toNat = [] :=
    List.drop_eq_nil_of_le hdrop
  have hdty : r.dtype.promote x.dtype = r.dtype := DType.promote_eq_left_of_le h.2
  cases r
  simp [splice, hstop, hpay, hdty]

/-- A step of the merge scan on an absorbed segment leaves the scan
unchanged. -/
theorem mergeRuns_cons_absorb {r x : Segment} {rest : List Segment}
    (hWF : WF x) (h : Absorbed r x) (hr : 0 < r.sampling_rate) :
    mergeRuns r (x :: rest) = mergeRuns r rest := by
  by_cases hxr : x = r
  · simp [mergeRuns, hxr]
  · have hcond : x.start ≤ r.stop + 1 / r.sampling_rate := by
      have h1 : x.start ≤ x.stop := hWF.start_le_stop
      have h2 : (0 : ℚ) ≤ 1 / r.sampling_rate := le_of_lt (by positivity)
      linarith [h.1]
    rw [mergeRuns, if_neg hxr, if_pos hcond, splice_absorb hWF h]

theorem splice_sampling_rate (r x : Segment) :
    (splice r x).sampling_rate = r.sampling_rate := rfl

theorem splice_stop (r x : Segment) : (splice r x).stop = max r.stop x.stop := rfl

theorem splice_dtype (r x : Segment) :
    (splice r x).dtype = r.dtype.promote x.dtype := rfl

/-- Inserting a copy of a segment that is already present in a sorted,
well-formed group (or already absorbed by the current run) does not change
the result of the merge scan. -/
theorem mergeRuns_insertSeg (x : Segment) (hWFx : WF x) :
    ∀ (l : List Segment) (r : Segment),
      l.Pairwise startLE → (∀ s ∈ l, WF s) → 0 < r.sampling_rate →
      (x ∈ l ∨ Absorbed r x) →
      mergeRuns r (insertSeg x l) = mergeRuns r l
  | [], r, _, _, hr, hx => by
    have habs : Absorbed r x := by
      rcases hx with hx | hx
      · exact absurd hx (List.not_mem_nil x)
      · exact hx
    rw [insertSeg]
    exact mergeRuns_cons_absorb hWFx habs hr
  | m :: l', r, hp, hWFl, hr, hx => by
    rcases List.pairwise_cons.mp hp with ⟨hm, hp'⟩
    have hWFm : WF m := hWFl m (List.mem_cons_self m l')
    by_cases hmx : m.start ≤ x.start
    · rw [insertSeg, if_pos hmx]
      by_cases h1 : m = r
      · rw [mergeRuns, if_pos h1, mergeRuns, if_pos h1]
        refine mergeRuns_insertSeg x hWFx l' r hp' (fun s hs => hWFl s (List.mem_cons_of_mem m hs)) hr ?_
        rcases hx with hx | hx
        · rcases List.mem_cons.mp hx with hx | hx
          · right
            subst hx; subst h1
            exact ⟨le_refl _, DType.le_refl _⟩
          · left; exact hx
        · right; exact hx
      · by_cases h2 : m.start ≤ r.stop + 1 / r.sampling_rate
        · rw [mergeRuns, if_neg h1, if_pos h2, mergeRuns, if_neg h1, if_pos h2]
          refine mergeRuns_insertSeg x hWFx l' (splice r m) hp'
            (fun s hs => hWFl s (List.mem_cons_of_mem m hs)) ?_ ?_
          · rw [splice_sampling_rate]; exact hr
          · rcases hx with hx | hx
            · rcases List.mem_cons.mp hx with hx | hx
              · right
                subst hx
                exact ⟨by rw [splice_stop]; exact le_max_right _ _,
                  by rw [splice_dtype]; exact DType.le_promote_right _ _⟩
              · left; exact hx
            · right
              exact ⟨by rw [splice_stop]; exact le_trans hx.1 (le_max_left _ _),
                by rw [splice_dtype]; exact DType.le_trans hx.2 (DType.le_promote_left _ _)⟩
        · rw [mergeRuns, if_neg h1, if_neg h2, mergeRuns, if_neg h1, if_neg h2]
          have hx' : x ∈ m :: l' := by
            rcases hx with hx | hx
            · exact hx
            · exfalso
              apply h2
              have h3 : x.start ≤ x.stop := hWFx.start_le_stop
              have h4 : (0 : ℚ) ≤ 1 / r.sampling_rate := le_of_lt (by positivity)
              linarith [hx.1]
          congr 1
          refine mergeRuns_insertSeg x hWFx l' m hp'
            (fun s hs => hWFl s (List.mem_cons_of_mem m hs)) hWFm.rate_pos ?_
          rcases List.mem_cons.mp hx' with hx' | hx'
          · right
            subst hx'
            exact ⟨le_refl _, DType.le_refl _⟩
          · left; exact hx'
    · rw [insertSeg, if_neg hmx]
      have habs : Absorbed r x := by
        rcases hx with hx | hx
        · exfalso
          rcases List.mem_cons.mp hx with hx | hx
          · subst hx; exact hmx (le_refl _)
          · exact hmx (hm x hx)
        · exact hx
      exact mergeRuns_cons_absorb hWFx habs hr

/-- Inserting a duplicate of a present element into a sorted, well-formed
group does not change the scan result. -/
theorem scanAll_insertSeg {x : Segment} {M : List Segment} (hx : x ∈ M)
    (hs : M.Pairwise startLE) (hWF : ∀ s ∈ M, WF s) :
    scanAll (insertSeg x M) = scanAll M := by
  match M with
  | [] => exact absurd hx (List.not_mem_nil x)
  | y :: l =>
    rcases List.pairwise_cons.mp hs with ⟨hy, hl⟩
    have hWFx : WF x := hWF x hx
    by_cases hc : y.start ≤ x.start
    · rw [insertSeg, if_pos hc]
      show mergeRuns y (insertSeg x l) = mergeRuns y l
      refine mergeRuns_insertSeg x hWFx l y hl
        (fun s hs' => hWF s (List.mem_cons_of_mem y hs'))
        (hWF y (List.mem_cons_self y l)).rate_pos ?_
      rcases List.mem_cons.mp hx with hx' | hx'
      · right
        subst hx'
        exact ⟨le_refl _, DType.le_refl _⟩
      · left; exact hx'
    · exfalso
      rcases List.mem_cons.mp hx with hx' | hx'
      · subst hx'; exact hc (le_refl _)
      · exact hc (hy x hx')

/-- Folding duplicates of present elements into a sorted, well-formed
group does not change the scan result. -/
theorem scanAll_foldr_insertSeg : ∀ (X : List Segment) {M : List Segment},
    (∀ a ∈ X, a ∈ M) → M.Pairwise startLE → (∀ s ∈ M, WF s) →
    scanAll (X.foldr insertSeg M) = scanAll M
  | [], _, _, _, _ => rfl
  | x :: X, M, hX, hs, hWF => by
    rw [List.foldr_cons]
    have h1 : scanAll (insertSeg x (X.foldr insertSeg M)) = scanAll (X.foldr insertSeg M) := by
      refine scanAll_insertSeg ?_ (foldr_insertSeg_pairwise hs) ?_
      · exact mem_foldr_insertSeg.mpr (Or.inr (hX x (List.mem_cons_self x X)))
      · intro s hs'
        rcases mem_foldr_insertSeg.mp hs' with h | h
        · exact hWF s (hX s (List.mem_cons_of_mem x h))
        · exact hWF s h
    rw [h1]
    exact scanAll_foldr_insertSeg X (fun a ha => hX a (List.mem_cons_of_mem x ha)) hs hWF

/-- Merging a group together with a copy of itself gives the same runs as
merging it once. -/
theorem mergeGroup_self_append {G : List Segment} (hWF : ∀ s ∈ G, WF s) :
    mergeGroup (G ++ G) = mergeGroup G := by
  unfold mergeGroup sortSegs
  rw [List.foldr_append]
  exact scanAll_foldr_insertSeg G
    (fun a ha => mem_sortSegs.mpr ha)
    (sortSegs_pairwise G)
    (fun s hs => hWF s (mem_sortSegs.mp hs))

theorem dedup_append_of_subset {α : Type} [DecidableEq α] :
    ∀ (A B : List α), (∀ a ∈ A, a ∈ B) → (A ++ B).dedup = B.dedup
  | [], _, _ => rfl
  | a :: A, B, h => by
    rw [List.cons_append, List.dedup_cons_of_mem, dedup_append_of_subset A B
      (fun b hb => h b (List.mem_cons_of_mem a hb))]
    exact List.mem_append.mpr (Or.inr (h a (List.mem_cons_self a A)))

/-- C1: merging the concatenation of a segment collection with an
identical copy of itself yields exactly the same result as merging the
collection once — byte-for-byte identical duplicates are dropped, so
deduplication is idempotent (spec sections 4.1 step 3 and 8; test
`TestMergeStream.test_identical_streams`). The hypothesis is the data
model's Segment invariant (spec section 3). -/
theorem merge_traces_idempotent (S : List Segment) (hWF : ∀ s ∈ S, WF s) :
    merge_traces (S ++ S) = merge_traces S := by
  unfold merge_traces
  rw [List.map_append, dedup_append_of_subset _ _ (fun a ha => ha)]
  have hfun : (fun k => mergeGroup ((S ++ S).filter (fun s => decide (segKey s = k)))) =
      (fun k => mergeGroup (S.filter (fun s => decide (segKey s = k)))) := by
    funext k
    rw [List.filter_append]
    exact mergeGroup_self_append (fun s hs => hWF s (List.mem_filter.mp hs).1)
  rw [hfun]

/-- Witness for C1: the idempotence theorem applied to a concrete
well-formed one-segment collection. -/
theorem merge_traces_idempotent_witness :
    (∀ s ∈ [wSegA], WF s) ∧ merge_traces ([wSegA] ++ [wSegA]) = merge_traces [wSegA] := by
  constructor
  · intro s hs
    rcases List.mem_singleton.mp hs with rfl
    constructor
    · norm_num [wSegA]
    constructor
    · norm_num [wSegA]
    · norm_num [wSegA, Segment.sample_count]
  · refine merge_traces_idempotent [wSegA] ?_
    intro s hs
    rcases List.mem_singleton.mp hs with rfl
    refine ⟨by norm_num [wSegA], by norm_num [wSegA], ?_⟩
    norm_num [wSegA, Segment.sample_count]

/-- For two segments sharing their grouping key, the merge reduces to the
single-group merge of the pair. -/
theorem merge_traces_pair {a b : Segment} (hk : segKey a = segKey b) :
    merge_traces [a, b] = mergeGroup [a, b] := by
  unfold merge_traces
  have h1 : ([a, b].map segKey).dedup = [segKey b] := by
    simp only [List.map_cons, List.map_nil]
    rw [List.dedup_cons_of_mem (by simp [hk]),
      List.dedup_cons_of_not_mem (List.not_mem_nil _), List.dedup_nil]
  rw [h1]
  have h2 : [a, b].filter (fun s => decide (segKey s = segKey b)) = [a, b] := by
    simp [List.filter, hk]
  simp [List.flatMap_cons, List.flatMap_nil, h2]

/-- Merging a single-element group returns it unchanged. -/
theorem mergeGroup_singleton (a : Segment) : mergeGroup [a] = [a] := rfl

/-- C2: segments with the same identity but different sampling rates are
never coalesced by the merge: both are kept as separate, independent
entries, in either input order, and the merge completes normally, i.e.
returns a value rather than failing (spec section 4.1 step 1 and section
7; test `TestMergeStream.test_traces_with_different_sampling_rates`). -/
theorem merge_traces_mixed_rates (a b : Segment) (hid : a.identity = b.identity)
    (hrate : a.sampling_rate ≠ b.sampling_rate) :
    merge_traces [a, b] = [a, b] ∧ merge_traces [b, a] = [b, a] := by
  have hk : segKey a ≠ segKey b := by
    intro h
    exact hrate (congrArg Prod.snd h)
  constructor
  · unfold merge_traces
    have h1 : ([a, b].map segKey).dedup = [segKey a, segKey b] := by
      simp only [List.map_cons, List.map_nil]
      rw [List.dedup_cons_of_not_mem (by simp [hk]),
        List.dedup_cons_of_not_mem (List.not_mem_nil _), List.dedup_nil]
    rw [h1]
    have h2 : [a, b].filter (fun s => decide (segKey s = segKey a)) = [a] := by
      simp [List.filter, hk, Ne.symm hk]
    have h3 : [a, b].filter (fun s => decide (segKey s = segKey b)) = [b] := by
      simp [List.filter, hk, Ne.symm hk]
    simp [List.flatMap_cons, List.flatMap_nil, h2, h3, mergeGroup_singleton]
  · unfold merge_traces
    have h1 : ([b, a].map segKey).dedup = [segKey b, segKey a] := by
      simp only [List.map_cons, List.map_nil]
      rw [List.dedup_cons_of_not_mem (by simp [Ne.symm hk]),
        List.dedup_cons_of_not_mem (List.not_mem_nil _), List.dedup_nil]
    rw [h1]
    have h2 : [b, a].filter (fun s => decide (segKey s = segKey b)) = [b] := by
      simp [List.filter, hk, Ne.symm hk]
    have h3 : [b, a].filter (fun s => decide (segKey s = segKey a)) = [a] := by
      simp [List.filter, hk, Ne.symm hk]
    simp [List.flatMap_cons, List.flatMap_nil, h2, h3, mergeGroup_singleton]

/-- Witness for C2: two concrete segments of one identity at 1 Hz and
2 Hz pass through the merge unchanged. -/
theorem merge_traces_mixed_rates_witness :
    wSegA.identity = wSegR2.identity ∧ wSegA.sampling_rate ≠ wSegR2.sampling_rate ∧
      merge_traces [wSegA, wSegR2] = [wSegA, wSegR2] ∧
      merge_traces [wSegR2, wSegA] = [wSegR2, wSegA] := by
  refine ⟨rfl, ?_, ?_⟩
  · norm_num [wSegA, wSegR2]
  · exact merge_traces_mixed_rates wSegA wSegR2 rfl (by norm_num [wSegA, wSegR2])

/-- The two-element merge scan always produces the promoted payload type
when the second segment merges into the first. -/
theorem mergeRuns_pair_dtype (a b : Segment)
    (hm : b.start ≤ a.stop + 1 / a.sampling_rate) :
    ∀ s ∈ mergeRuns a [b], s.dtype = a.dtype.promote b.dtype := by
  intro s hs
  by_cases hEq : b = a
  · rw [mergeRuns, if_pos hEq] at hs
    rcases List.mem_singleton.mp hs with rfl
    subst hEq
    exact (DType.promote_self _).symm
  · rw [mergeRuns, if_neg hEq, if_pos hm] at hs
    rcases List.mem_singleton.mp hs with rfl
    rfl

/-- Merging a same-key overlapping-or-adjacent pair always produces
segments whose payload type is the promotion of the two inputs'. -/
theorem mergeGroup_pair_dtype (a b : Segment) (hwb : WF b) (hab : a.start ≤ b.start)
    (hm : b.start ≤ a.stop + 1 / a.sampling_rate) :
    ∀ s ∈ mergeGroup [a, b], s.dtype = a.dtype.promote b.dtype := by
  intro s hs
  have hgroup : mergeGroup [a, b] = scanAll (insertSeg a [b]) := rfl
  by_cases hba : b.start ≤ a.start
  · have hsort : insertSeg a [b] = [b, a] := by
      rw [insertSeg, if_pos hba]; rfl
    rw [hgroup, hsort] at hs
    have hm' : a.start ≤ b.stop + 1 / b.sampling_rate := by
      have h1 : (0 : ℚ) < 1 / b.sampling_rate := by
        have := hwb.rate_pos; positivity
      linarith [hwb.start_le_stop, hba]
    have := mergeRuns_pair_dtype b a hm' s hs
    rw [this, DType.promote_comm]
  · have hsort : insertSeg a [b] = [a, b] := by
      rw [insertSeg, if_neg hba]
    rw [hgroup, hsort] at hs
    exact mergeRuns_pair_dtype a b hm s hs

/-- C3: merging a floating-point segment with an integer segment of the
same identity and sampling rate yields floating-point output whichever of
the two is the floating-point one and regardless of input order, and
merging two segments of one integer type keeps that type (spec section
4.1 step 4; test `TestMergeStream.test_array_data_type`). Here `a` is the
segment that starts no later; the dtype antecedent covers either
assignment of float and int to `a` and `b`, and both input orders are
concluded for. -/
theorem merge_traces_dtype_promotion (a b : Segment) (hid : a.identity = b.identity)
    (hrate : a.sampling_rate = b.sampling_rate) (hwa : WF a) (hwb : WF b)
    (hab : a.start ≤ b.start) (hm : b.start ≤ a.stop + 1 / a.sampling_rate) :
    (a.dtype.isFloat = true ∨ b.dtype.isFloat = true →
      (∀ s ∈ merge_traces [a, b], s.dtype.isFloat = true) ∧
      (∀ s ∈ merge_traces [b, a], s.dtype.isFloat = true)) ∧
    (a.dtype = b.dtype → a.dtype.isFloat = false →
      (∀ s ∈ merge_traces [a, b], s.dtype = a.dtype) ∧
      (∀ s ∈ merge_traces [b, a], s.dtype = a.dtype)) := by
  have hk : segKey a = segKey b := by simp [segKey, hid, hrate]
  have hdty1 : ∀ s ∈ merge_traces [a, b], s.dtype = a.dtype.promote b.dtype := by
    intro s hs
    rw [merge_traces_pair hk] at hs
    exact mergeGroup_pair_dtype a b hwb hab hm s hs
  have hdty2 : ∀ s ∈ merge_traces [b, a], s.dtype = a.dtype.promote b.dtype := by
    intro s hs
    rw [merge_traces_pair hk.symm] at hs
    have hgroup : mergeGroup [b, a] = scanAll (insertSeg b [a]) := rfl
    have hsort : insertSeg b [a] = [a, b] := by
      rw [insertSeg, if_pos hab]; rfl
    rw [hgroup, hsort] at hs
    exact mergeRuns_pair_dtype a b hm s hs
  constructor
  · intro hf
    refine ⟨fun s hs => ?_, fun s hs => ?_⟩
    · rw [hdty1 s hs, DType.isFloat_promote]
      rcases hf with hf | hf <;> simp [hf]
    · rw [hdty2 s hs, DType.isFloat_promote]
      rcases hf with hf | hf <;> simp [hf]
  · intro hEq _
    refine ⟨fun s hs => ?_, fun s hs => ?_⟩
    · rw [hdty1 s hs, ← hEq, DType.promote_self]
    · rw [hdty2 s hs, ← hEq, DType.promote_self]

/-- Witness for C3: a concrete float64 segment merged with an overlapping
concrete int32 segment gives floating-point output in both input orders,
both when the float segment starts earlier and when the int segment
starts earlier. -/
theorem merge_traces_dtype_promotion_witness :
    WF wFloatSeg ∧ WF wIntSeg ∧ WF wSegA ∧ WF wFloatLate ∧
      (∀ s ∈ merge_traces [wFloatSeg, wIntSeg], s.dtype.isFloat = true) ∧
      (∀ s ∈ merge_traces [wIntSeg, wFloatSeg], s.dtype.isFloat = true) ∧
      (∀ s ∈ merge_traces [wSegA, wFloatLate], s.dtype.isFloat = true) ∧
      (∀ s ∈ merge_traces [wFloatLate, wSegA], s.dtype.isFloat = true) := by
  have hwa : WF wFloatSeg := by
    refine ⟨by norm_num [wFloatSeg], by norm_num [wFloatSeg], ?_⟩
    norm_num [wFloatSeg, Segment.sample_count]
  have hwb : WF wIntSeg := by
    refine ⟨by norm_num [wIntSeg], by norm_num [wIntSeg], ?_⟩
    norm_num [wIntSeg, Segment.sample_count]
  have hwc : WF wSegA := by
    refine ⟨by norm_num [wSegA], by norm_num [wSegA], ?_⟩
    norm_num [wSegA, Segment.sample_count]
  have hwd : WF wFloatLate := by
    refine ⟨by norm_num [wFloatLate], by norm_num [wFloatLate], ?_⟩
    norm_num [wFloatLate, Segment.sample_count]
  have h1 := (merge_traces_dtype_promotion wFloatSeg wIntSeg rfl rfl hwa hwb
    (by norm_num [wFloatSeg, wIntSeg]) (by norm_num [wFloatSeg, wIntSeg])).1 (Or.inl rfl)
  have h2 := (merge_traces_dtype_promotion wSegA wFloatLate rfl rfl hwc hwd
    (by norm_num [wSegA, wFloatLate]) (by norm_num [wSegA, wFloatLate])).1 (Or.inr rfl)
  exact ⟨hwa, hwb, hwc, hwd, h1.1, h1.2, h2.1, h2.2⟩

/-- C4: two same-identity, same-rate segments whose gap is exactly one
sample period splice into a single segment whose sample count is the sum
of the inputs' counts and which has no internal gap (spec sections 4.1
step 3 and 8; test `TestMergeStream.test_adjacent_traces`). -/
theorem merge_traces_adjacent (a b : Segment) (hid : a.identity = b.identity)
    (hrate : a.sampling_rate = b.sampling_rate) (hwa : WF a) (hwb : WF b)
    (hadj : b.start = a.stop + 1 / a.sampling_rate) :
    ∃ m, merge_traces [a, b] = [m] ∧
      m.sample_count = a.sample_count + b.sample_count ∧ gapFree m := by
  have hρ : 0 < a.sampling_rate := hwa.rate_pos
  have hρne : a.sampling_rate ≠ 0 := ne_of_gt hρ
  have hinv : (0 : ℚ) < 1 / a.sampling_rate := by positivity
  have hlt : a.start < b.start := by
    rw [hadj]; linarith [hwa.start_le_stop]
  have hba : ¬ b.start ≤ a.start := not_le.mpr hlt
  have hk : segKey a = segKey b := by simp [segKey, hid, hrate]
  have hne : b ≠ a := by
    intro h; rw [h] at hlt; exact lt_irrefl _ hlt
  have hstop : a.stop < b.stop := by
    have h1 : a.stop < b.start := by rw [hadj]; linarith
    linarith [hwb.start_le_stop]
  have hdrop : (⌊(a.stop - b.start) * b.sampling_rate⌋ + 1).toNat = 0 := by
    have h1 : (a.stop - b.start) * b.sampling_rate = -1 := by
      rw [hadj, ← hrate]
      field_simp
    rw [h1]
    norm_num
  have hpay : (splice a b).payload = a.payload ++ b.payload := by
    unfold splice
    rw [hdrop, List.drop_zero]
  refine ⟨splice a b, ?_, ?_, ?_⟩
  · rw [merge_traces_pair hk]
    have hgroup : mergeGroup [a, b] = scanAll (insertSeg a [b]) := rfl
    have hsort : insertSeg a [b] = [a, b] := by
      rw [insertSeg, if_neg hba]
    rw [hgroup, hsort]
    show mergeRuns a [b] = [splice a b]
    rw [mergeRuns, if_neg hne, if_pos (le_of_eq hadj)]
    rfl
  · unfold Segment.sample_count
    rw [hpay, List.length_append]
  · unfold gapFree Segment.sample_count
    rw [hpay, List.length_append]
    have hmax : (splice a b).stop = b.stop := by
      unfold splice
      exact max_eq_right (le_of_lt hstop)
    have hstart : (splice a b).start = a.start := rfl
    have hsr : (splice a b).sampling_rate = a.sampling_rate := rfl
    rw [hmax, hstart, hsr]
    have e1 : (a.payload.length : ℚ) = (a.stop - a.start) * a.sampling_rate + 1 := hwa.2.2
    have e2 : (b.payload.length : ℚ) = (b.stop - b.start) * a.sampling_rate + 1 := by
      rw [hrate]; exact hwb.2.2
    have e3 : (b.start - a.start) * a.sampling_rate =
        (a.stop - a.start) * a.sampling_rate + 1 := by
      rw [hadj]
      field_simp
      ring
    have e4 : (b.stop - a.start) * a.sampling_rate =
        (b.stop - b.start) * a.sampling_rate + (b.start - a.start) * a.sampling_rate := by
      ring
    push_cast
    linarith [e1, e2, e3, e4]

/-- Witness for C4: two concrete adjacent five-sample segments merge into
one ten-sample gap-free segment. -/
theorem merge_traces_adjacent_witness :
    WF wSegA ∧ WF wAdjSeg ∧ wAdjSeg.start = wSegA.stop + 1 / wSegA.sampling_rate ∧
      ∃ m, merge_traces [wSegA, wAdjSeg] = [m] ∧
        m.sample_count = wSegA.sample_count + wAdjSeg.sample_count ∧ gapFree m := by
  have hwa : WF wSegA := by
    refine ⟨by norm_num [wSegA], by norm_num [wSegA], ?_⟩
    norm_num [wSegA, Segment.sample_count]
  have hwb : WF wAdjSeg := by
    refine ⟨by norm_num [wAdjSeg], by norm_num [wAdjSeg], ?_⟩
    norm_num [wAdjSeg, Segment.sample_count]
  have hadj : wAdjSeg.start = wSegA.stop + 1 / wSegA.sampling_rate := by
    norm_num [wSegA, wAdjSeg]
  exact ⟨hwa, hwb, hadj, merge_traces_adjacent wSegA wAdjSeg rfl rfl hwa hwb hadj⟩

/-! Lemmas about the partitioner. -/

theorem mem_insertQ {a x : ℚ} : ∀ {l : List ℚ}, a ∈ insertQ x l ↔ a = x ∨ a ∈ l
  | [] => by simp [insertQ]
  | y :: l => by
    by_cases hc : y ≤ x
    · simp only [insertQ, if_pos hc, List.mem_cons, mem_insertQ (l := l)]
      tauto
    · rw [insertQ, if_neg hc]
      simp [List.mem_cons]

theorem insertQ_pairwise {x : ℚ} : ∀ {l : List ℚ},
    l.Pairwise (· ≤ ·) → (insertQ x l).Pairwise (· ≤ ·)
  | [], _ => by simp [insertQ]
  | y :: l, h => by
    rcases List.pairwise_cons.mp h with ⟨hy, ht⟩
    by_cases hc : y ≤ x
    · rw [insertQ, if_pos hc]
      refine List.pairwise_cons.mpr ⟨?_, insertQ_pairwise ht⟩
      intro b hb
      rcases mem_insertQ.mp hb with hb | hb
      · subst hb; exact hc
      · exact hy b hb
    · rw [insertQ, if_neg hc]
      have hxy : x ≤ y := le_of_lt (lt_of_not_le hc)
      refine List.pairwise_cons.mpr ⟨?_, h⟩
      intro b hb
      rcases List.mem_cons.mp hb with hb | hb
      · subst hb; exact hxy
      · exact le_trans hxy (hy b hb)

theorem insertQ_nodup {x : ℚ} : ∀ {l : List ℚ},
    l.Nodup → x ∉ l → (insertQ x l).Nodup
  | [], _, _ => by simp [insertQ]
  | y :: l, h, hx => by
    rcases List.nodup_cons.mp h with ⟨hy, ht⟩
    by_cases hc : y ≤ x
    · rw [insertQ, if_pos hc]
      refine List.nodup_cons.mpr ⟨?_, insertQ_nodup ht (fun hxl => hx (List.mem_cons_of_mem y hxl))⟩
      intro hmem
      rcases mem_insertQ.mp hmem with hb | hb
      · exact hx (hb ▸ List.mem_cons_self y l)
      · exact hy hb
    · rw [insertQ, if_neg hc]
      exact List.nodup_cons.mpr ⟨hx, h⟩

theorem mem_sortQ {a : ℚ} : ∀ {l : List ℚ}, a ∈ sortQ l ↔ a ∈ l
  | [] => Iff.rfl
  | x :: l => by
    show a ∈ insertQ x (sortQ l) ↔ _
    simp only [mem_insertQ, mem_sortQ (l := l), List.mem_cons]

theorem sortQ_sorted : ∀ (l : List ℚ), (sortQ l).Pairwise (· ≤ ·)
  | [] => List.Pairwise.nil
  | x :: l => insertQ_pairwise (sortQ_sorted l)

theorem sortQ_nodup : ∀ {l : List ℚ}, l.Nodup → (sortQ l).Nodup
  | [], _ => List.Pairwise.nil
  | x :: l, h => by
    rcases List.nodup_cons.mp h with ⟨hx, ht⟩
    exact insertQ_nodup (sortQ_nodup ht) (fun hmem => hx (mem_sortQ.mp hmem))

theorem sortQ_pairwise_lt {l : List ℚ} (h : l.Nodup) : (sortQ l).Pairwise (· < ·) :=
  ((sortQ_sorted l).and (sortQ_nodup h)).imp (fun hab => lt_of_le_of_ne hab.1 hab.2)

theorem breakpoints_pairwise_lt (l : List Segment) :
    (breakpoints l).Pairwise (· < ·) :=
  sortQ_pairwise_lt (List.nodup_dedup _)

theorem consecPairs_lt : ∀ {l : List ℚ}, l.Pairwise (· < ·) →
    ∀ p ∈ consecPairs l, p.1 < p.2 := by
  intro l
  induction l with
  | nil => intro _ p hp; simp [consecPairs] at hp
  | cons a t ih =>
    intro h p hp
    cases t with
    | nil => simp [consecPairs] at hp
    | cons b rest =>
      rw [consecPairs] at hp
      rcases List.mem_cons.mp hp with hp | hp
      · subst hp
        exact (List.pairwise_cons.mp h).1 b (List.mem_cons_self b rest)
      · exact ih (List.pairwise_cons.mp h).2 p hp

/-- C5: the ContiguityPartitioner emits exactly the maximal all-identity
coverage windows: with no common window the output is empty, and on the
concrete three-identity collection whose 30-second span has a 2-second
gap in one identity, it emits exactly two bundles, each shorter than 30
seconds, neither spanning the gap, and each segment internally gap-free
(spec sections 4.2 and 8; tests `TestStream2Contiguous.test_disjoint`
and `test_one_trace_gap`). -/
theorem stream2contiguous_windows :
    (∀ l : List Segment, (∀ t1 t2 : ℚ, t1 < t2 → qualB l t1 t2 = false) →
      stream2contiguous l = []) ∧
    contiguousWindows exC5 = [(0, 14), (16, 30)] ∧
    (stream2contiguous exC5).length = 2 ∧
    (∀ b ∈ stream2contiguous exC5, ∀ s ∈ b,
      s.stop - s.start < 30 ∧ gapFree s ∧ (s.stop ≤ 14 ∨ 16 ≤ s.start)) := by
  have hpart : ∀ l : List Segment, (∀ t1 t2 : ℚ, t1 < t2 → qualB l t1 t2 = false) →
      stream2contiguous l = [] := by
    intro l h
    unfold stream2contiguous contiguousWindows
    have hq : (consecPairs (breakpoints l)).filter (fun p => qualB l p.1 p.2) = [] := by
      rw [List.filter_eq_nil_iff]
      intro p hp
      have hlt := consecPairs_lt (breakpoints_pairwise_lt l) p hp
      simp [h p.1 p.2 hlt]
    rw [hq]
    rfl
  have hw : contiguousWindows exC5 = [(0, 14), (16, 30)] := by decide
  have hi : identsOf exC5 = [idA5, idB5, idC5] := by decide
  have hn1 : ("AAA" : String) ≠ "BBB" := by decide
  have hn2 : ("AAA" : String) ≠ "CCC" := by decide
  have hn3 : ("BBB" : String) ≠ "CCC" := by decide
  have hb : stream2contiguous exC5 =
      [[trimSeg 0 14 sA5, trimSeg 0 14 sB5, trimSeg 0 14 sC5a],
       [trimSeg 16 30 sA5, trimSeg 16 30 sB5, trimSeg 16 30 sC5b]] := by
    unfold stream2contiguous
    rw [hw]
    simp only [List.map_cons, List.map_nil, bundleAt, hi]
    norm_num [List.filterMap, List.find?, exC5, sA5, sB5, sC5a, sC5b, idA5, idB5, idC5,
      Identity.mk.injEq, hn1, hn2, hn3]
  have t1 : trimSeg 0 14 sA5 = ⟨idA5, 0, 14, 1, List.replicate 15 1, DType.float64⟩ := by
    norm_num [trimSeg, sA5, List.take_replicate, List.drop_replicate, Int.toNat_ofNat]
    decide
  have t2 : trimSeg 0 14 sB5 = ⟨idB5, 0, 14, 1, List.replicate 15 2, DType.float64⟩ := by
    norm_num [trimSeg, sB5, List.take_replicate, List.drop_replicate, Int.toNat_ofNat]
    decide
  have t3 : trimSeg 0 14 sC5a = ⟨idC5, 0, 14, 1, List.replicate 15 3, DType.float64⟩ := by
    norm_num [trimSeg, sC5a, List.take_replicate, List.drop_replicate, Int.toNat_ofNat]
    decide
  have t4 : trimSeg 16 30 sA5 = ⟨idA5, 16, 30, 1, List.replicate 15 1, DType.float64⟩ := by
    norm_num [trimSeg, sA5, List.take_replicate, List.drop_replicate, Int.toNat_ofNat]
    decide
  have t5 : trimSeg 16 30 sB5 = ⟨idB5, 16, 30, 1, List.replicate 15 2, DType.float64⟩ := by
    norm_num [trimSeg, sB5, List.take_replicate, List.drop_replicate, Int.toNat_ofNat]
    decide
  have t6 : trimSeg 16 30 sC5b = ⟨idC5, 16, 30, 1, List.replicate 15 4, DType.float64⟩ := by
    norm_num [trimSeg, sC5b, List.take_replicate, List.drop_replicate, Int.toNat_ofNat]
    decide
  refine ⟨hpart, hw, by rw [hb]; rfl, ?_⟩
  rw [hb, t1, t2, t3, t4, t5, t6]
  intro b hbmem s hsmem
  rcases List.mem_cons.mp hbmem with rfl | hbmem
  · rcases List.mem_cons.mp hsmem with rfl | hsmem
    · refine ⟨by norm_num, ?_, by norm_num⟩
      norm_num [gapFree, Segment.sample_count]
    rcases List.mem_cons.mp hsmem with rfl | hsmem
    · refine ⟨by norm_num, ?_, by norm_num⟩
      norm_num [gapFree, Segment.sample_count]
    rcases List.mem_cons.mp hsmem with rfl | hsmem
    · refine ⟨by norm_num, ?_, by norm_num⟩
      norm_num [gapFree, Segment.sample_count]
    · exact absurd hsmem (List.not_mem_nil s)
  rcases List.mem_cons.mp hbmem with rfl | hbmem
  · rcases List.mem_cons.mp hsmem with rfl | hsmem
    · refine ⟨by norm_num, ?_, by norm_num⟩
      norm_num [gapFree, Segment.sample_count]
    rcases List.mem_cons.mp hsmem with rfl | hsmem
    · refine ⟨by norm_num, ?_, by norm_num⟩
      norm_num [gapFree, Segment.sample_count]
    rcases List.mem_cons.mp hsmem with rfl | hsmem
    · refine ⟨by norm_num, ?_, by norm_num⟩
      norm_num [gapFree, Segment.sample_count]
    · exact absurd hsmem (List.not_mem_nil s)
  · exact absurd hbmem (List.not_mem_nil b)

/-- Witness for C5: the no-common-window case applied to a concrete
two-identity collection with disjoint coverage yields the empty output. -/
theorem stream2contiguous_windows_witness :
    (∀ t1 t2 : ℚ, t1 < t2 → qualB exDisjoint t1 t2 = false) ∧
      stream2contiguous exDisjoint = [] := by
  have hi : identsOf exDisjoint = [idA5, idB5] := by decide
  have hn1 : ("BBB" : String) ≠ "AAA" := by decide
  have hn2 : ("AAA" : String) ≠ "BBB" := by decide
  have hno : ∀ t1 t2 : ℚ, t1 < t2 → qualB exDisjoint t1 t2 = false := by
    intro t1 t2 hlt
    rw [Bool.eq_false_iff]
    intro hq
    unfold qualB at hq
    rw [hi] at hq
    simp only [coversB, exDisjoint, dA5, dB5, idA5, idB5,
      List.all_cons, List.all_nil, List.any_cons, List.any_nil,
      Bool.and_eq_true, Bool.or_eq_true, decide_eq_true_eq,
      Identity.mk.injEq, hn1, hn2, and_true, true_and, or_false, false_or,
      and_false, false_and, Bool.false_eq_true] at hq
    obtain ⟨⟨h1, h2⟩, h3, h4⟩ := hq
    linarith
  exact ⟨hno, stream2contiguous_windows.1 exDisjoint hno⟩

/-! Lemmas about the bulk resolver. -/

/-- C6: `stream_bulk_split` returns one Bundle per input query in input
order, and a query with no matching available data — absent identity,
empty available collection, or a window with no coverage — yields an
empty Bundle with no error (spec section 4.3 steps 1-2 and section 7;
tests `TestStreamBulkSplit.test_no_bulk_matches` and
`test_empty_stream_returns_empty`). -/
theorem stream_bulk_split_one_bundle_per_query (avail : List Segment)
    (queries : List Query) (fill : Option Int)
    (hwf : ∀ q ∈ queries, q.requested_start ≤ q.requested_end) :
    ∃ bs, stream_bulk_split avail queries fill = .ok bs ∧
      bs.length = queries.length ∧
      ∀ i, i < queries.length →
        (∀ s ∈ avail, intersectsQ (queries.getD i defaultQuery) s = false) →
        bs.getD i [] = [] := by
  have hfind : queries.find? (fun q => decide (q.requested_end < q.requested_start)) = none := by
    rw [List.find?_eq_none]
    intro q hq
    simp [not_lt.mpr (hwf q hq)]
  refine ⟨queries.map (fun q => resolveQuery avail q fill), ?_, List.length_map _ _, ?_⟩
  · unfold stream_bulk_split
    rw [hfind]
  · intro i hi hnone
    have hlen : i < (queries.map (fun q => resolveQuery avail q fill)).length := by
      rw [List.length_map]; exact hi
    rw [List.getD_eq_getElem _ _ hlen, List.getElem_map]
    have hq : queries[i] = queries.getD i defaultQuery := (List.getD_eq_getElem _ _ hi).symm
    have hfilter : avail.filter (intersectsQ queries[i]) = [] := by
      rw [List.filter_eq_nil_iff]
      intro s hs
      rw [hq, hnone s hs]
      exact Bool.false_ne_true
    unfold resolveQuery
    rw [hfilter]

/-- Witness for C6: a well-formed query against an empty available
collection resolves to one empty Bundle without error. -/
theorem stream_bulk_split_one_bundle_per_query_witness :
    (∀ q ∈ [wQ], q.requested_start ≤ q.requested_end) ∧
      ∃ bs, stream_bulk_split [] [wQ] none = .ok bs ∧
        bs.length = [wQ].length ∧
        ∀ i, i < [wQ].length →
          (∀ s ∈ ([] : List Segment), intersectsQ ([wQ].getD i defaultQuery) s = false) →
          bs.getD i [] = [] := by
  have hwf : ∀ q ∈ [wQ], q.requested_start ≤ q.requested_end := by
    intro q hq
    rcases List.mem_singleton.mp hq with rfl
    norm_num [wQ]
  exact ⟨hwf, stream_bulk_split_one_bundle_per_query [] [wQ] none hwf⟩

/-- C8: a malformed query (requested end earlier than requested start)
makes bulk resolution fail immediately with a validation error naming the
offending identity, producing no bundles at all (spec sections 4.3 step 6
and 7). -/
theorem stream_bulk_split_malformed (avail : List Segment) (queries : List Query)
    (fill : Option Int) (q : Query) (hq : q ∈ queries)
    (hbad : q.requested_end < q.requested_start) :
    ∃ q', q' ∈ queries ∧ q'.requested_end < q'.requested_start ∧
      stream_bulk_split avail queries fill = .error (.badQuery q'.identity) ∧
      ∀ bs, stream_bulk_split avail queries fill ≠ .ok bs := by
  cases hfind : queries.find? (fun x => decide (x.requested_end < x.requested_start)) with
  | none =>
    exfalso
    have := List.find?_eq_none.mp hfind q hq
    simp [hbad] at this
  | some q' =>
    have herr : stream_bulk_split avail queries fill = .error (.badQuery q'.identity) := by
      unfold stream_bulk_split
      rw [hfind]
    refine ⟨q', List.mem_of_find?_eq_some hfind, ?_, herr, ?_⟩
    · have := List.find?_some hfind
      simpa using this
    · intro bs hok
      rw [herr] at hok
      exact Except.noConfusion hok

/-- Witness for C8: a concrete malformed query fails with an error naming
its identity. -/
theorem stream_bulk_split_malformed_witness :
    wBadQ.requested_end < wBadQ.requested_start ∧
      ∃ q', q' ∈ [wBadQ] ∧ q'.requested_end < q'.requested_start ∧
        stream_bulk_split [] [wBadQ] none = .error (.badQuery q'.identity) ∧
        ∀ bs, stream_bulk_split [] [wBadQ] none ≠ .ok bs := by
  have hbad : wBadQ.requested_end < wBadQ.requested_start := by norm_num [wBadQ]
  exact ⟨hbad, stream_bulk_split_malformed [] [wBadQ] none wBadQ
    (List.mem_singleton.mpr rfl) hbad⟩

/-- C7: when a fill value is supplied and some data matches, per-query
resolution returns one continuous segment anchored at the requested start,
reaching the requested end to within one sample period, internally
gap-free, whose samples at times covered by no matched segment are the
fill value; concretely, a window extending 10 seconds before the available
data yields a segment of the full 20-second requested duration whose first
10 samples are the fill value (spec section 4.3 step 4 and section 8;
test `TestStreamBulkSplit.test_fill_value`). -/
theorem resolveQuery_fill_full_window :
    (∀ (avail : List Segment) (q : Query) (v : Int) (s0 : Segment) (rest : List Segment),
      avail.filter (intersectsQ q) = s0 :: rest →
      q.requested_start ≤ q.requested_end →
      0 < s0.sampling_rate →
      ∃ m, resolveQuery avail q (some v) = [m] ∧
        m.start = q.requested_start ∧
        m.sampling_rate = s0.sampling_rate ∧
        m.stop ≤ q.requested_end ∧
        q.requested_end - 1 / s0.sampling_rate < m.stop ∧
        gapFree m ∧
        (∀ k : Nat, k < m.sample_count →
          (∀ s ∈ s0 :: rest,
            ¬(s.start ≤ q.requested_start + (k : ℚ) / s0.sampling_rate ∧
              q.requested_start + (k : ℚ) / s0.sampling_rate ≤ s.stop)) →
          m.payload.getD k (v + 1) = v)) ∧
    resolveQuery exAvail7 exQ7 (some 0) = [fillSeg exQ7 exAvail7 1 0] ∧
    (fillSeg exQ7 exAvail7 1 0).stop - (fillSeg exQ7 exAvail7 1 0).start = 20 ∧
    (∀ k : Nat, k < 10 → (fillSeg exQ7 exAvail7 1 0).payload.getD k 1 = 0) := by
  have huniv : ∀ (avail : List Segment) (q : Query) (v : Int) (s0 : Segment)
      (rest : List Segment),
      avail.filter (intersectsQ q) = s0 :: rest →
      q.requested_start ≤ q.requested_end →
      0 < s0.sampling_rate →
      ∃ m, resolveQuery avail q (some v) = [m] ∧
        m.start = q.requested_start ∧
        m.sampling_rate = s0.sampling_rate ∧
        m.stop ≤ q.requested_end ∧
        q.requested_end - 1 / s0.sampling_rate < m.stop ∧
        gapFree m ∧
        (∀ k : Nat, k < m.sample_count →
          (∀ s ∈ s0 :: rest,
            ¬(s.start ≤ q.requested_start + (k : ℚ) / s0.sampling_rate ∧
              q.requested_start + (k : ℚ) / s0.sampling_rate ≤ s.stop)) →
          m.payload.getD k (v + 1) = v) := by
    intro avail q v s0 rest hmatch hwf hρ
    have hρne : s0.sampling_rate ≠ 0 := ne_of_gt hρ
    have hΔ : 0 ≤ q.requested_end - q.requested_start := by linarith
    have hF0 : (0 : ℤ) ≤ ⌊(q.requested_end - q.requested_start) * s0.sampling_rate⌋ := by
      apply Int.le_floor.mpr
      push_cast
      positivity
    have hcast :
        (((⌊(q.requested_end - q.requested_start) * s0.sampling_rate⌋).toNat : ℚ)) =
          ((⌊(q.requested_end - q.requested_start) * s0.sampling_rate⌋ : ℤ) : ℚ) := by
      exact_mod_cast congrArg Int.cast (Int.toNat_of_nonneg hF0)
    have hres : resolveQuery avail q (some v) =
        [fillSeg q (s0 :: rest) s0.sampling_rate v] := by
      unfold resolveQuery
      rw [hmatch]
    have hn : (fillSeg q (s0 :: rest) s0.sampling_rate v).sample_count =
        (⌊(q.requested_end - q.requested_start) * s0.sampling_rate⌋).toNat + 1 := by
      unfold fillSeg Segment.sample_count
      rw [List.length_map, List.length_range]
    have hstop : (fillSeg q (s0 :: rest) s0.sampling_rate v).stop =
        q.requested_start +
          ((⌊(q.requested_end - q.requested_start) * s0.sampling_rate⌋ : ℤ) : ℚ) /
            s0.sampling_rate := by
      show q.requested_start + _ = _
      rw [← hcast]
      push_cast
      ring_nf
    have hFle : ((⌊(q.requested_end - q.requested_start) * s0.sampling_rate⌋ : ℤ) : ℚ) ≤
        (q.requested_end - q.requested_start) * s0.sampling_rate := Int.floor_le _
    have hFgt : (q.requested_end - q.requested_start) * s0.sampling_rate - 1 <
        ((⌊(q.requested_end - q.requested_start) * s0.sampling_rate⌋ : ℤ) : ℚ) :=
      Int.sub_one_lt_floor _
    refine ⟨fillSeg q (s0 :: rest) s0.sampling_rate v, hres, rfl, rfl, ?_, ?_, ?_, ?_⟩
    · rw [hstop]
      have h1 : ((⌊(q.requested_end - q.requested_start) * s0.sampling_rate⌋ : ℤ) : ℚ) /
          s0.sampling_rate ≤ q.requested_end - q.requested_start := by
        rw [div_le_iff₀ hρ]
        exact hFle
      linarith
    · rw [hstop]
      have h1 : ((q.requested_end - q.requested_start) * s0.sampling_rate - 1) /
          s0.sampling_rate <
          ((⌊(q.requested_end - q.requested_start) * s0.sampling_rate⌋ : ℤ) : ℚ) /
            s0.sampling_rate := by
        gcongr
      have h2 : ((q.requested_end - q.requested_start) * s0.sampling_rate - 1) /
          s0.sampling_rate =
          (q.requested_end - q.requested_start) - 1 / s0.sampling_rate := by
        rw [sub_div, mul_div_cancel_right₀ _ hρne]
      linarith
    · unfold gapFree
      rw [hn, hstop]
      have hsr : (fillSeg q (s0 :: rest) s0.sampling_rate v).sampling_rate =
          s0.sampling_rate := rfl
      have hst : (fillSeg q (s0 :: rest) s0.sampling_rate v).start =
          q.requested_start := rfl
      rw [hsr, hst]
      have h1 : (q.requested_start +
          ((⌊(q.requested_end - q.requested_start) * s0.sampling_rate⌋ : ℤ) : ℚ) /
            s0.sampling_rate - q.requested_start) * s0.sampling_rate =
          ((⌊(q.requested_end - q.requested_start) * s0.sampling_rate⌋ : ℤ) : ℚ) := by
        field_simp
        ring
      rw [h1]
      have hc2 := hcast
      push_cast at hc2 ⊢
      linarith
    · intro k hk hcov
      have hk2 : k < ⌊(q.requested_end - q.requested_start) * s0.sampling_rate⌋.toNat + 1 := by
        rw [hn] at hk
        exact hk
      have hsome : (fillSeg q (s0 :: rest) s0.sampling_rate v).payload[k]? =
          some (sampleValue (s0 :: rest) v
            (q.requested_start + (k : ℚ) / s0.sampling_rate)) := by
        show ((List.range _).map _)[k]? = _
        rw [List.getElem?_map, List.getElem?_range hk2]
        rfl
      rw [List.getD_eq_getElem?_getD, hsome, Option.getD_some]
      unfold sampleValue
      have hfind : (s0 :: rest).find? (fun s =>
          decide (s.start ≤ q.requested_start + (k : ℚ) / s0.sampling_rate) &&
          decide (q.requested_start + (k : ℚ) / s0.sampling_rate ≤ s.stop)) = none := by
        rw [List.find?_eq_none]
        intro s hs
        simp only [Bool.and_eq_true, decide_eq_true_eq, not_and]
        intro h1 h2
        exact hcov s hs ⟨h1, h2⟩
      rw [hfind]
  refine ⟨huniv, ?_, ?_, ?_⟩
  · have hf : exAvail7.filter (intersectsQ exQ7) = exAvail7 := by decide
    unfold resolveQuery
    rw [hf]
    rfl
  · have h20 : Int.toNat 20 = 20 := rfl
    norm_num [fillSeg, exQ7, exAvail7, h20]
  · intro k hk
    have hk2 : k < (⌊(exQ7.requested_end - exQ7.requested_start) * 1⌋).toNat + 1 := by
      have h21 : (⌊(exQ7.requested_end - exQ7.requested_start) * 1⌋).toNat + 1 = 21 := by
        norm_num [exQ7]
        decide
      omega
    have hsome : (fillSeg exQ7 exAvail7 1 0).payload[k]? =
        some (sampleValue exAvail7 0 (exQ7.requested_start + (k : ℚ) / 1)) := by
      show ((List.range _).map _)[k]? = _
      rw [List.getElem?_map, List.getElem?_range hk2]
      rfl
    rw [List.getD_eq_getElem?_getD, hsome, Option.getD_some]
    unfold sampleValue
    have hkQ : ((k : ℚ)) < 10 := by exact_mod_cast hk
    have hfind : exAvail7.find? (fun s =>
        decide (s.start ≤ exQ7.requested_start + (k : ℚ) / 1) &&
        decide (exQ7.requested_start + (k : ℚ) / 1 ≤ s.stop)) = none := by
      rw [List.find?_eq_none]
      intro s hs
      rcases List.mem_singleton.mp hs with rfl
      simp only [Bool.and_eq_true, decide_eq_true_eq, not_and]
      intro hcontra
      exfalso
      rw [show exQ7.requested_start + (k : ℚ) / 1 = (k : ℚ) by norm_num [exQ7]] at hcontra
      norm_num [exAvail7] at hcontra
      linarith
    rw [hfind]

/-- Witness for C7: the fill theorem applied to the concrete window
extending 10 seconds before the concrete available data. -/
theorem resolveQuery_fill_full_window_witness :
    exAvail7.filter (intersectsQ exQ7) =
      [⟨idW, 10, 30, 1, List.replicate 21 7, DType.float64⟩] ∧
    exQ7.requested_start ≤ exQ7.requested_end ∧
    (∃ m, resolveQuery exAvail7 exQ7 (some 0) = [m] ∧
      m.start = exQ7.requested_start ∧
      m.stop ≤ exQ7.requested_end ∧ gapFree m) := by
  have hmatch : exAvail7.filter (intersectsQ exQ7) =
      [⟨idW, 10, 30, 1, List.replicate 21 7, DType.float64⟩] := by decide
  have hwf : exQ7.requested_start ≤ exQ7.requested_end := by norm_num [exQ7]
  obtain ⟨m, h1, h2, -, h4, -, h6, -⟩ :=
    resolveQuery_fill_full_window.1 exAvail7 exQ7 0
      ⟨idW, 10, 30, 1, List.replicate 21 7, DType.float64⟩ [] hmatch hwf (by norm_num)
  exact ⟨hmatch, hwf, m, h1, h2, h4, h6⟩

/-! Lemmas about the tabular bulk front end. -/

theorem find?_congr_list {α : Type} {p p' : α → Bool} :
    ∀ {l : List α}, (∀ a ∈ l, p a = p' a) → l.find? p = l.find? p'
  | [], _ => rfl
  | a :: l, h => by
    have hpa : p a = p' a := h a (List.mem_cons_self a l)
    cases hp : p' a with
    | true =>
      rw [List.find?_cons_of_pos _ (by rw [hpa, hp]), List.find?_cons_of_pos _ hp]
    | false =>
      rw [List.find?_cons_of_neg _ (by rw [hpa, hp]; exact Bool.false_ne_true),
        List.find?_cons_of_neg _ (by rw [hp]; exact Bool.false_ne_true)]
      exact find?_congr_list (fun b hb => h b (List.mem_cons_of_mem a hb))

theorem filterMap_congr_list {α β : Type} {f g : α → Option β} :
    ∀ {l : List α}, (∀ a ∈ l, f a = g a) → l.filterMap f = l.filterMap g
  | [], _ => rfl
  | a :: l, h => by
    rw [List.filterMap_cons, List.filterMap_cons, h a (List.mem_cons_self a l),
      filterMap_congr_list (fun b hb => h b (List.mem_cons_of_mem a hb))]

theorem filterMap_lookup_map_fst (t : Table) :
    ∀ (cs : List String), (∀ c ∈ cs, (t.lookup c).isSome = true) →
      (cs.filterMap (fun c => (t.lookup c).map (fun vs => (c, vs)))).map Prod.fst = cs
  | [], _ => rfl
  | c :: cs, h => by
    obtain ⟨vs, hvs⟩ := Option.isSome_iff_exists.mp (h c (List.mem_cons_self c cs))
    rw [List.filterMap_cons, hvs]
    show ((c, vs) :: cs.filterMap _).map Prod.fst = c :: cs
    rw [List.map_cons,
      filterMap_lookup_map_fst t cs (fun c' hc' => h c' (List.mem_cons_of_mem c hc'))]

/-- Normalization of bulk tables depends only on the recognized columns'
contents. -/
theorem get_waveform_bulk_df_congr {t t' : Table}
    (h : ∀ c ∈ WAVEFORM_REQUEST_COLUMNS, t.lookup c = t'.lookup c) :
    get_waveform_bulk_df t = get_waveform_bulk_df t' := by
  unfold get_waveform_bulk_df
  rw [find?_congr_list (fun c hc => by rw [h c hc]),
    filterMap_congr_list (fun c hc => by rw [h c hc])]

/-- C9: table-form bulk input keeps exactly the recognized columns — extra
columns are dropped and column order is irrelevant, so any two tables
agreeing on the recognized columns normalize identically and resolve
identically — and a missing required column fails with a validation error
naming a missing recognized column (spec section 4.3, tabular input
convenience; tests `TestGetWaveformBulk.test_dataframe_extra_column` and
`test_missing_column_raises`). -/
theorem get_waveform_bulk_df_spec :
    (∀ t : Table, (∀ c ∈ WAVEFORM_REQUEST_COLUMNS, (t.lookup c).isSome = true) →
      ∃ u, get_waveform_bulk_df t = .ok u ∧ u.map Prod.fst = WAVEFORM_REQUEST_COLUMNS) ∧
    (∀ t t' : Table, (∀ c ∈ WAVEFORM_REQUEST_COLUMNS, t.lookup c = t'.lookup c) →
      get_waveform_bulk_df t = get_waveform_bulk_df t' ∧
      ∀ (avail : List Segment) (fill : Option Int),
        resolveTable avail t fill = resolveTable avail t' fill) ∧
    (∀ (t : Table) (c : String), c ∈ WAVEFORM_REQUEST_COLUMNS → t.lookup c = none →
      ∃ c', c' ∈ WAVEFORM_REQUEST_COLUMNS ∧ t.lookup c' = none ∧
        get_waveform_bulk_df t = .error (.missingColumn c')) := by
  refine ⟨?_, ?_, ?_⟩
  · intro t h
    have hfind : WAVEFORM_REQUEST_COLUMNS.find? (fun c => (t.lookup c).isNone) = none := by
      rw [List.find?_eq_none]
      intro c hc
      obtain ⟨vs, hvs⟩ := Option.isSome_iff_exists.mp (h c hc)
      simp [hvs]
    refine ⟨WAVEFORM_REQUEST_COLUMNS.filterMap
      (fun c => (t.lookup c).map (fun vs => (c, vs))), ?_, ?_⟩
    · unfold get_waveform_bulk_df
      rw [hfind]
    · exact filterMap_lookup_map_fst t WAVEFORM_REQUEST_COLUMNS h
  · intro t t' h
    have heq : get_waveform_bulk_df t = get_waveform_bulk_df t' :=
      get_waveform_bulk_df_congr h
    refine ⟨heq, ?_⟩
    intro avail fill
    unfold resolveTable
    rw [heq]
  · intro t c hc hnone
    cases hfind : WAVEFORM_REQUEST_COLUMNS.find? (fun c => (t.lookup c).isNone) with
    | none =>
      exfalso
      have := List.find?_eq_none.mp hfind c hc
      simp [hnone] at this
    | some c' =>
      refine ⟨c', List.mem_of_find?_eq_some hfind, ?_, ?_⟩
      · have := List.find?_some hfind
        simpa [Option.isNone_iff_eq_none] using this
      · unfold get_waveform_bulk_df
        rw [hfind]

/-- Witness for C9: the concrete canonical table normalizes with exactly
the recognized columns, agrees with its reversed-and-extended variant, and
the variant missing `network` fails naming a missing column. -/
theorem get_waveform_bulk_df_spec_witness :
    (∃ u, get_waveform_bulk_df wTab = .ok u ∧
      u.map Prod.fst = WAVEFORM_REQUEST_COLUMNS) ∧
    get_waveform_bulk_df wTab = get_waveform_bulk_df wTabRev ∧
    (∀ (avail : List Segment) (fill : Option Int),
      resolveTable avail wTab fill = resolveTable avail wTabRev fill) ∧
    (∃ c', c' ∈ WAVEFORM_REQUEST_COLUMNS ∧ wTabMissing.lookup c' = none ∧
      get_waveform_bulk_df wTabMissing = .error (.missingColumn c')) := by
  have h1 := get_waveform_bulk_df_spec.1 wTab (by decide)
  have h2 := get_waveform_bulk_df_spec.2.1 wTab wTabRev (by decide)
  have h3 := get_waveform_bulk_df_spec.2.2 wTabMissing "network" (by decide) (by decide)
  exact ⟨h1, h2.1, h2.2, h3⟩

/-- C10: importing the stations tabular module mutates the external
library's `Inventory` class as a load-time side effect — it installs a
`to_df` method delegating to `stations_to_df`, so afterwards attribute
lookup on every `Inventory` instance process-wide finds that method
(source `obsplus/stations/pd.py`, module-level assignment
`obspy.core.inventory.Inventory.to_df = inventory_to_dataframe`). -/
theorem stations_pd_load_monkeypatch :
    ∀ (st : PyState) (inv : Inventory),
      (loadStationsPd st).inventoryClass.to_df = some inventory_to_dataframe ∧
      instanceToDf (loadStationsPd st) inv = some (stations_to_df inv) :=
  fun _ _ => ⟨rfl, rfl⟩
